import Mathlib

/-!
Verification development for the GENIE-style Algorithm Registry and the
sampled algorithm implementations.

The registry subsystem (`AlgFactory`) is declared in
`src/Algorithm/AlgFactory.h`; its method bodies are not part of the
source tree, so the registry operations below are modelled from the
specification, guided by the doc comments in the header.  The sampled
implementation files `src/Numerical/VegasMCIntegrator.cxx` and
`src/Physics/NeutralHeavyLepton/NHLDecayUtils.cxx` are embedded directly
from their source.
-/

namespace genie

/-- An algorithm identity: a qualified (namespaced) name plus a
configuration-set label.  Mirrors `AlgId` (`Algorithm/AlgId.h`). -/
structure AlgId where
  name : String
  config : String
deriving DecidableEq, Repr

/-- The pool key of an identity: `namespace::name/config`, as documented on
`AlgFactory::fAlgPool` ("'algorithm key' (namespace::name/config)"). -/
def AlgId.key (aid : AlgId) : String := aid.name ++ "/" ++ aid.config

/-- A configuration parameter set drawn from the Configuration Store:
named scalar parameters. -/
abbrev Params := List (String × Int)

/-- Modelled from the spec: a concrete algorithm implementation behind the
capability interface.  Its `Configure` step may reject a supplied parameter
set (`ConfigurationError`), modelled by the `accepts` predicate. -/
structure AlgImpl where
  accepts : Params → Bool

/-- Modelled from the spec: a built, configured algorithm instance.  It
records the Identity it was built with, its implementation, and its
configured internal parameter state. -/
structure Algorithm where
  aid : AlgId
  impl : AlgImpl
  params : Params

/-- Modelled from the spec: the external collaborators — the
implementation-registration table (`Resolve(name) -> Constructor`) and the
Configuration Store (label -> parameter set). -/
structure Env where
  resolve : String → Option AlgImpl
  store : String → Option Params

/-- The error taxonomy of the registry subsystem (spec section 7). -/
inductive AlgError where
  | malformedIdentity
  | unknownAlgorithmName
  | configurationNotFound
  | configurationError
  | reconfigurationFailed (aid : AlgId)
deriving DecidableEq, Repr

/-- A reference to a pooled instance (object identity of a pooled
`Algorithm *`). -/
abbrev Ref := Nat

/-- Modelled from the spec: the state of the `AlgFactory` singleton — the
pool map from algorithm key to owned instance (`fAlgPool`), realised as an
association list into a heap of instances so that object identity
(reference stability) is observable. -/
structure AlgFactory where
  pool : List (String × Ref)
  heap : List (Ref × Algorithm)
  nextRef : Ref

/-- First-match lookup in the pool association list. -/
def lookupKey : List (String × Ref) → String → Option Ref
  | [], _ => none
  | (k, r) :: rest, q => if k = q then some r else lookupKey rest q

/-- First-match lookup in the instance heap. -/
def lookupRef : List (Ref × Algorithm) → Ref → Option Algorithm
  | [], _ => none
  | (r, a) :: rest, q => if r = q then some a else lookupRef rest q

/-- Modelled from the spec: `AlgFactory::InstantiateAlgorithm` (the
Instantiation Engine, `Build`).  Resolves the concrete implementation for
the name, reads the configuration set named by the label from the store,
and configures the fresh instance; on any failure no object is produced. -/
def InstantiateAlgorithm (env : Env) (aid : AlgId) : Except AlgError Algorithm :=
  match env.resolve aid.name with
  | none => .error .unknownAlgorithmName
  | some impl =>
    match env.store aid.config with
    | none => .error .configurationNotFound
    | some ps =>
      if impl.accepts ps then .ok { aid := aid, impl := impl, params := ps }
      else .error .configurationError

/-- Modelled from the spec: `AlgFactory::GetAlgorithm` (pooled lookup).
On a pool hit the cached reference is returned unchanged; on a miss the
Instantiation Engine builds the instance, which is inserted into the pool
at a fresh reference; on failure the factory state is unchanged. -/
def GetAlgorithm (env : Env) (f : AlgFactory) (aid : AlgId) :
    Except AlgError Ref × AlgFactory :=
  match lookupKey f.pool aid.key with
  | some r => (.ok r, f)
  | none =>
    match InstantiateAlgorithm env aid with
    | .error e => (.error e, f)
    | .ok alg =>
      (.ok f.nextRef,
        { pool := (aid.key, f.nextRef) :: f.pool,
          heap := (f.nextRef, alg) :: f.heap,
          nextRef := f.nextRef + 1 })

/-- Modelled from the spec: `AlgFactory::AdoptAlgorithm`.  Always a fresh
build; the instance is not placed in the pool and ownership passes to the
caller; the factory state is untouched. -/
def AdoptAlgorithm (env : Env) (f : AlgFactory) (aid : AlgId) :
    Except AlgError Algorithm × AlgFactory :=
  (InstantiateAlgorithm env aid, f)

/-- Modelled from the spec: the `Configure` capability of an instance —
re-reads the configuration set named by its own stored Identity's label
from the current store contents and replaces the internal parameter
state, or fails leaving the instance untouched. -/
def Configure (env : Env) (alg : Algorithm) : Except AlgError Algorithm :=
  match env.store alg.aid.config with
  | none => .error .configurationNotFound
  | some ps =>
    if alg.impl.accepts ps then .ok { alg with params := ps }
    else .error .configurationError

/-- Walk the pooled instances, re-invoking `Configure` on each; a failing
entry keeps its prior instance and contributes a `ReconfigurationFailed`
record, while the remaining entries are still attempted. -/
def reconfigureEntries (env : Env) :
    List (Ref × Algorithm) → List AlgError × List (Ref × Algorithm)
  | [] => ([], [])
  | (r, alg) :: rest =>
    let tail := reconfigureEntries env rest
    match Configure env alg with
    | .ok alg' => (tail.1, (r, alg') :: tail.2)
    | .error _ =>
      (.reconfigurationFailed alg.aid :: tail.1, (r, alg) :: tail.2)

/-- Modelled from the spec: `AlgFactory::ForceReconfiguration` —
reconfigures every pooled instance in place against the current store,
collecting per-entry failures. -/
def ForceReconfiguration (env : Env) (f : AlgFactory) :
    List AlgError × AlgFactory :=
  let res := reconfigureEntries env f.heap
  (res.1, { f with heap := res.2 })

/-- Split a character list at the first `/` separator, if any. -/
def splitNameLabel : List Char → List Char × Option (List Char)
  | [] => ([], none)
  | c :: cs =>
    if c = '/' then ([], some cs)
    else
      let rest := splitNameLabel cs
      (c :: rest.1, rest.2)

/-- Modelled from the spec: `Parse(text) -> Identity` over the combined
text form `namespace::name/label`; the label defaults to `"Default"` when
the separator is absent; the empty text is a `MalformedIdentity`. -/
def Parse (text : String) : Except AlgError AlgId :=
  if text = "" then .error .malformedIdentity
  else
    match splitNameLabel text.data with
    | (n, none) => .ok ⟨⟨n⟩, "Default"⟩
    | (n, some l) => .ok ⟨⟨n⟩, ⟨l⟩⟩

/-! ### Sampled algorithm implementations, embedded from source -/

/-- A `GSFunc`: a scalar function of `NParams` parameters, the integrand
interface consumed by `IntegratorI::Integrate`
(`src/Numerical/GSFunc.h`, used by `VegasMCIntegrator.cxx`). -/
structure GSFunc where
  nParams : Nat
  eval : List ℚ → ℚ

namespace VegasMCIntegrator

/-- Embeds `VegasMCIntegrator::Integrate` (`src/Numerical/VegasMCIntegrator.cxx`,
lines 44-52): reads the dimension for a log message and returns 0. -/
def Integrate (gsfunc : GSFunc) : ℚ :=
  let _ndim := gsfunc.nParams
  0

end VegasMCIntegrator

/-- Embeds `NHLDecayMode_t` (`src/Physics/NeutralHeavyLepton/NHLDecayMode.h`). -/
inductive NHLDecayMode where
  | kNHLDcyNull
  | kNHLDcEENu
  | kNHLDcMuENu
  | kNHLDcEMuNu
  | kNHLDcMuMuNu
  | kNHLDcPiE
  | kNHLDcPiMu
  | kNHLDcKE
  | kNHLDcKMu
  | kNHLDcPi0Nu
  | kNHLDcRho0Nu
  | kNHLDcRhoE
  | kNHLDcOmegaNu
  | kNHLDcRhoMu
  | kNHLDcPhiNu
  | kNHLDcTauENu
  | kNHLDcDE
  | kNHLDcTauMuNu
  | kNHLDcPiTau
  | kNHLNDecayModes
deriving DecidableEq, Repr

/-- The PDG particle codes referenced by `NHLDecayUtils.cxx` (declared in
the external `Framework/ParticleData/PDGCodes.h`). -/
inductive PdgCode where
  | kPdgNuE
  | kPdgPositron
  | kPdgElectron
  | kPdgMuon
  | kPdgAntiMuon
  | kPdgNuMu
  | kPdgPiP
  | kPdgKP
  | kPdgKM
  | kPdgRho0
  | kPdgRhoP
  | kPdgomega
  | kPdgPhi
  | kPdgTau
  | kPdgDP
deriving DecidableEq, Repr

namespace nhl

/-- Embeds `genie::utils::nhl::AsString` (`NHLDecayUtils.cxx`, lines 19-83).
The `switch` has no case for `kNHLNDecayModes`, which falls through to the
trailing return. -/
def AsString : NHLDecayMode → String
  | .kNHLDcyNull => "Invalid NHL decay mode!"
  | .kNHLDcEENu => "N -> nu e+ e-"
  | .kNHLDcMuENu => "N -> nu e+ mu- "
  | .kNHLDcEMuNu => "N -> nu mu+ e-"
  | .kNHLDcMuMuNu => "N -> nu mu+ mu-"
  | .kNHLDcPiE => "N -> pi+ e-"
  | .kNHLDcPiMu => "N -> mu- pi+"
  | .kNHLDcKE => "N -> e- K+"
  | .kNHLDcKMu => "N -> mu- K+"
  | .kNHLDcPi0Nu => "N -> nu Pi0"
  | .kNHLDcRho0Nu => "N -> nu Rho0"
  | .kNHLDcRhoE => "N -> e- Rho+"
  | .kNHLDcOmegaNu => "N -> nu Omega"
  | .kNHLDcRhoMu => "N -> mu- Rho+"
  | .kNHLDcPhiNu => "N -> nu Phi"
  | .kNHLDcTauENu => "N -> nu e+ tau-"
  | .kNHLDcDE => "N-> D+ e-"
  | .kNHLDcTauMuNu => "N -> tau- mu+ nu"
  | .kNHLDcPiTau => "N -> Pi+ tau-"
  | .kNHLNDecayModes => "Invalid NHL decay mode!"

/-- Embeds `genie::utils::nhl::DecayProductList` (`NHLDecayUtils.cxx`, lines
112-224).  The `switch` enumerates the product lists of the handled
channels; `kNHLDcyNull`, `kNHLDcPi0Nu` and `kNHLNDecayModes` have no case
and reach the empty `default` branch. -/
def DecayProductList : NHLDecayMode → List PdgCode
  | .kNHLDcEENu => [.kPdgNuE, .kPdgPositron, .kPdgElectron]
  | .kNHLDcMuENu => [.kPdgNuE, .kPdgPositron, .kPdgMuon]
  | .kNHLDcEMuNu => [.kPdgNuMu, .kPdgAntiMuon, .kPdgElectron]
  | .kNHLDcMuMuNu => [.kPdgNuMu, .kPdgAntiMuon, .kPdgMuon]
  | .kNHLDcPiE => [.kPdgPiP, .kPdgElectron]
  | .kNHLDcPiMu => [.kPdgPiP, .kPdgMuon]
  | .kNHLDcKE => [.kPdgKP, .kPdgElectron]
  | .kNHLDcKMu => [.kPdgKM, .kPdgMuon]
  | .kNHLDcRho0Nu => [.kPdgRho0, .kPdgNuMu]
  | .kNHLDcRhoE => [.kPdgRhoP, .kPdgElectron]
  | .kNHLDcOmegaNu => [.kPdgomega, .kPdgNuMu]
  | .kNHLDcRhoMu => [.kPdgRhoP, .kPdgMuon]
  | .kNHLDcPhiNu => [.kPdgPhi, .kPdgNuMu]
  | .kNHLDcTauENu => [.kPdgTau, .kPdgElectron, .kPdgNuE]
  | .kNHLDcDE => [.kPdgDP, .kPdgElectron]
  | .kNHLDcTauMuNu => [.kPdgTau, .kPdgMuon, .kPdgNuMu]
  | .kNHLDcPiTau => [.kPdgPiP, .kPdgTau]
  | _ => []

/-- The mass-summation loop of `IsKinematicallyAllowed`: particles the PDG
library does not recognise contribute nothing (only an error log). -/
def massSum (mass : PdgCode → Option ℚ) : List PdgCode → ℚ
  | [] => 0
  | p :: rest =>
    (match mass p with
     | some m => m
     | none => 0) + massSum mass rest

/-- Embeds `genie::utils::nhl::IsKinematicallyAllowed` (`NHLDecayUtils.cxx`,
lines 85-110): the NHL mass `M` must strictly exceed the sum of the decay
product masses.  The PDG library is an external collaborator, passed here
as a mass table. -/
def IsKinematicallyAllowed (mass : PdgCode → Option ℚ)
    (nhldm : NHLDecayMode) (M : ℚ) : Bool :=
  decide (massSum mass (DecayProductList nhldm) < M)

end nhl

/-! ### Helper lemmas -/

/-- Splitting a character list that contains no `/` yields the whole list
and no label part. -/
lemma splitNameLabel_no_sep (l : List Char) (h : '/' ∉ l) :
    splitNameLabel l = (l, none) := by
  induction l with
  | nil => rfl
  | cons c cs ih =>
    simp only [List.mem_cons, not_or] at h
    simp [splitNameLabel, if_neg (Ne.symm h.1), ih h.2]

/-- One registry operation, as a step relation on the factory state. -/
inductive FactoryStep : AlgFactory → AlgFactory → Prop where
  | get (env : Env) (f : AlgFactory) (aid : AlgId) (res : Except AlgError Ref)
      (f' : AlgFactory) : GetAlgorithm env f aid = (res, f') → FactoryStep f f'
  | adopt (env : Env) (f : AlgFactory) (aid : AlgId)
      (res : Except AlgError Algorithm) (f' : AlgFactory) :
      AdoptAlgorithm env f aid = (res, f') → FactoryStep f f'
  | reconfig (env : Env) (f : AlgFactory) (errs : List AlgError)
      (f' : AlgFactory) : ForceReconfiguration env f = (errs, f') →
      FactoryStep f f'

/-- Any finite sequence of registry operations. -/
abbrev FactorySteps : AlgFactory → AlgFactory → Prop :=
  Relation.ReflTransGen FactoryStep

/-- A successful pooled lookup leaves the identity bound in the result
state's pool at the returned reference. -/
lemma lookupKey_of_getAlgorithm_ok {env : Env} {f f' : AlgFactory}
    {aid : AlgId} {r : Ref} (hg : GetAlgorithm env f aid = (.ok r, f')) :
    lookupKey f'.pool aid.key = some r := by
  unfold GetAlgorithm at hg
  split at hg
  next r₀ hl =>
    injection hg with h1 h2
    injection h1 with h1
    subst h1; subst h2
    exact hl
  next hl =>
    split at hg
    next e hb =>
      injection hg with h1 h2
      exact Except.noConfusion h1
    next alg hb =>
      injection hg with h1 h2
      injection h1 with h1
      subst h1; subst h2
      simp [lookupKey]

/-- A `GetAlgorithm` call never disturbs an existing pool binding. -/
lemma getAlgorithm_preserves_pool {env : Env} {f f' : AlgFactory}
    {aid : AlgId} {res : Except AlgError Ref}
    (hg : GetAlgorithm env f aid = (res, f')) (k : String) (r : Ref)
    (h : lookupKey f.pool k = some r) : lookupKey f'.pool k = some r := by
  unfold GetAlgorithm at hg
  split at hg
  next r₀ hl =>
    injection hg with h1 h2
    subst h2; exact h
  next hl =>
    split at hg
    next e hb =>
      injection hg with h1 h2
      subst h2; exact h
    next alg hb =>
      injection hg with h1 h2
      subst h2
      show lookupKey ((aid.key, f.nextRef) :: f.pool) k = some r
      rw [lookupKey]
      by_cases hk : aid.key = k
      · subst hk
        rw [h] at hl
        exact Option.noConfusion hl
      · rw [if_neg hk]
        exact h

/-- A single registry operation never disturbs an existing pool binding. -/
lemma factoryStep_preserves_pool {f f' : AlgFactory} (hs : FactoryStep f f')
    (k : String) (r : Ref) (h : lookupKey f.pool k = some r) :
    lookupKey f'.pool k = some r := by
  cases hs with
  | get env f aid res f' hg => exact getAlgorithm_preserves_pool hg k r h
  | adopt env f aid res f' hg =>
    injection hg with h1 h2
    subst h2; exact h
  | reconfig env f errs f' hg =>
    injection hg with h1 h2
    subst h2; exact h

/-- No sequence of registry operations disturbs an existing pool
binding. -/
lemma factorySteps_preserve_pool {f g : AlgFactory} (hs : FactorySteps f g)
    (k : String) (r : Ref) (h : lookupKey f.pool k = some r) :
    lookupKey g.pool k = some r := by
  induction hs with
  | refl => exact h
  | tail hab hbc ih => exact factoryStep_preserves_pool hbc k r ih

/-- A successful `Configure` only replaces the parameter state: identity
and implementation are untouched, and the new parameters are exactly the
store's current entry for the instance's own label. -/
lemma Configure_ok {env : Env} {alg alg' : Algorithm}
    (h : Configure env alg = .ok alg') :
    alg'.aid = alg.aid ∧ alg'.impl = alg.impl ∧
      env.store alg.aid.config = some alg'.params := by
  unfold Configure at h
  split at h
  next hst => exact Except.noConfusion h
  next ps hst =>
    split at h
    · injection h with h
      subst h
      exact ⟨rfl, rfl, hst⟩
    · exact Except.noConfusion h

/-- Unfolding `reconfigureEntries` on a head entry whose `Configure`
succeeds. -/
lemma reconfigureEntries_cons_ok {env : Env} {a₀ alg' : Algorithm}
    (r₀ : Ref) (rest : List (Ref × Algorithm))
    (hc : Configure env a₀ = .ok alg') :
    reconfigureEntries env ((r₀, a₀) :: rest) =
      ((reconfigureEntries env rest).1,
        (r₀, alg') :: (reconfigureEntries env rest).2) := by
  simp [reconfigureEntries, hc]

/-- Unfolding `reconfigureEntries` on a head entry whose `Configure`
fails. -/
lemma reconfigureEntries_cons_err {env : Env} {a₀ : Algorithm}
    {e : AlgError} (r₀ : Ref) (rest : List (Ref × Algorithm))
    (hc : Configure env a₀ = .error e) :
    reconfigureEntries env ((r₀, a₀) :: rest) =
      (.reconfigurationFailed a₀.aid :: (reconfigureEntries env rest).1,
        (r₀, a₀) :: (reconfigureEntries env rest).2) := by
  simp [reconfigureEntries, hc]

/-- Pointwise effect of the reconfiguration walk on each pooled entry: a
successfully reconfigured entry is replaced at its reference, a failing
entry keeps its prior instance and contributes a `ReconfigurationFailed`
record. -/
lemma reconfigureEntries_lookup (env : Env) (hs : List (Ref × Algorithm))
    (r : Ref) (alg : Algorithm) (h : lookupRef hs r = some alg) :
    (∀ alg', Configure env alg = .ok alg' →
        lookupRef (reconfigureEntries env hs).2 r = some alg') ∧
    (∀ e, Configure env alg = .error e →
        lookupRef (reconfigureEntries env hs).2 r = some alg ∧
          AlgError.reconfigurationFailed alg.aid ∈
            (reconfigureEntries env hs).1) := by
  induction hs with
  | nil => exact absurd h (by simp [lookupRef])
  | cons p rest ih =>
    obtain ⟨r₀, a₀⟩ := p
    rw [lookupRef] at h
    by_cases hr : r₀ = r
    · rw [if_pos hr] at h
      injection h with h
      subst h
      constructor
      · intro alg' hc
        rw [reconfigureEntries_cons_ok r₀ rest hc, lookupRef, if_pos hr]
      · intro e hc
        rw [reconfigureEntries_cons_err r₀ rest hc, lookupRef]
        exact ⟨by rw [if_pos hr], by simp⟩
    · rw [if_neg hr] at h
      rcases hc₀ : Configure env a₀ with e₀ | a₀'
      · rw [reconfigureEntries_cons_err r₀ rest hc₀]
        refine ⟨fun alg' hc => ?_, fun e hc => ?_⟩
        · rw [lookupRef, if_neg hr]
          exact (ih h).1 alg' hc
        · rw [lookupRef, if_neg hr]
          exact ⟨((ih h).2 e hc).1, List.mem_cons_of_mem _ ((ih h).2 e hc).2⟩
      · rw [reconfigureEntries_cons_ok r₀ rest hc₀]
        refine ⟨fun alg' hc => ?_, fun e hc => ?_⟩
        · rw [lookupRef, if_neg hr]
          exact (ih h).1 alg' hc
        · rw [lookupRef, if_neg hr]
          exact (ih h).2 e hc

/-- A heap lookup hit is a heap member. -/
lemma lookupRef_some_mem {hs : List (Ref × Algorithm)} {r : Ref}
    {a : Algorithm} (h : lookupRef hs r = some a) : (r, a) ∈ hs := by
  induction hs with
  | nil => exact absurd h (by simp [lookupRef])
  | cons p rest ih =>
    obtain ⟨r₀, a₀⟩ := p
    rw [lookupRef] at h
    by_cases hr : r₀ = r
    · rw [if_pos hr] at h
      injection h with h
      subst hr
      subst h
      exact List.mem_cons_self _ _
    · rw [if_neg hr] at h
      exact List.mem_cons_of_mem _ (ih h)

/-- A missed pool lookup means the key is bound nowhere in the pool. -/
lemma lookupKey_none_not_mem {ps : List (String × Ref)} {k : String}
    (h : lookupKey ps k = none) : k ∉ ps.map Prod.fst := by
  induction ps with
  | nil => simp
  | cons p rest ih =>
    obtain ⟨k₀, r₀⟩ := p
    rw [lookupKey] at h
    by_cases hk : k₀ = k
    · rw [if_pos hk] at h
      exact Option.noConfusion h
    · rw [if_neg hk] at h
      simp only [List.map_cons, List.mem_cons, not_or]
      exact ⟨fun h1 => hk h1.symm, ih h⟩

/-- A successful Engine build returns an instance recording exactly the
requested identity. -/
lemma InstantiateAlgorithm_ok {env : Env} {aid : AlgId} {alg : Algorithm}
    (h : InstantiateAlgorithm env aid = .ok alg) : alg.aid = aid := by
  unfold InstantiateAlgorithm at h
  split at h
  next => exact Except.noConfusion h
  next impl hres =>
    split at h
    next => exact Except.noConfusion h
    next ps hst =>
      split at h
      · injection h with h
        subst h
        rfl
      · exact Except.noConfusion h

/-- The reconfiguration walk keeps the references of the heap entries, in
order. -/
lemma reconfigureEntries_fst (env : Env) (hs : List (Ref × Algorithm)) :
    ((reconfigureEntries env hs).2).map Prod.fst = hs.map Prod.fst := by
  induction hs with
  | nil => rfl
  | cons p rest ih =>
    obtain ⟨r₀, a₀⟩ := p
    rcases hc : Configure env a₀ with e | a₁
    · rw [reconfigureEntries_cons_err r₀ rest hc, List.map_cons,
        List.map_cons, ih]
    · rw [reconfigureEntries_cons_ok r₀ rest hc, List.map_cons,
        List.map_cons, ih]

/-- The reconfiguration walk keeps, at every reference, an instance with
the same identity. -/
lemma reconfigureEntries_lookup_aid (env : Env)
    {hs : List (Ref × Algorithm)} {r : Ref} {alg : Algorithm}
    (h : lookupRef hs r = some alg) :
    ∃ alg', lookupRef (reconfigureEntries env hs).2 r = some alg' ∧
      alg'.aid = alg.aid := by
  rcases hc : Configure env alg with e | alg'
  · exact ⟨alg, ((reconfigureEntries_lookup env hs r alg h).2 e hc).1, rfl⟩
  · exact ⟨alg', (reconfigureEntries_lookup env hs r alg h).1 alg' hc,
      (Configure_ok hc).1⟩

/-- The pool invariant: pool keys are unique (at most one instance per
identity), heap references are below the allocation counter, and every
pool entry's key is the key of the identity that the instance reachable
at its reference was built with. -/
def PoolInv (f : AlgFactory) : Prop :=
  (f.pool.map Prod.fst).Nodup ∧
  (∀ r alg, (r, alg) ∈ f.heap → r < f.nextRef) ∧
  (∀ k r, (k, r) ∈ f.pool →
    ∃ alg, lookupRef f.heap r = some alg ∧ alg.aid.key = k)

/-! ### Witness fixtures: a concrete environment and factory runs -/

/-- An implementation accepting every parameter set. -/
def implT : AlgImpl := ⟨fun _ => true⟩

/-- An implementation accepting only the parameter set `scale = 2`. -/
def implSel : AlgImpl := ⟨fun ps => decide (ps = [("scale", 2)])⟩

def aidX : AlgId := ⟨"genie::X", "Default"⟩

def aidY : AlgId := ⟨"genie::Y", "Default"⟩

def aidZ : AlgId := ⟨"genie::Z", "Default"⟩

/-- Registration table for `implT` and `implSel`; store has `scale = 2`. -/
def envS : Env :=
  ⟨fun n =>
      if n = "genie::X" then some implT
      else if n = "genie::Y" then some implSel
      else none,
    fun l => if l = "Default" then some [("scale", 2)] else none⟩

/-- The same registrations after the store was edited to `scale = 3`. -/
def envS3 : Env :=
  ⟨envS.resolve, fun l => if l = "Default" then some [("scale", 3)] else none⟩

def f0 : AlgFactory := ⟨[], [], 0⟩

def f1 : AlgFactory := (GetAlgorithm envS f0 aidX).2

def f3 : AlgFactory := (GetAlgorithm envS f1 aidY).2

def f4 : AlgFactory := (ForceReconfiguration envS3 f3).2

def algX2 : Algorithm := ⟨aidX, implT, [("scale", 2)]⟩

def algY2 : Algorithm := ⟨aidY, implSel, [("scale", 2)]⟩

/-! ### Claim theorems -/

/-- C1: once a first `GetAlgorithm` call has successfully built and pooled
an instance for an identity, every later `GetAlgorithm` call with an equal
identity — after any sequence of registry operations, and under any
current Configuration Store contents — returns the same reference and
leaves the factory state untouched (no reconstruction, no
reconfiguration). -/
theorem GetAlgorithm_reference_stability (env env' : Env)
    (f f' g : AlgFactory) (aid : AlgId) (r : Ref)
    (h : GetAlgorithm env f aid = (.ok r, f')) (hs : FactorySteps f' g) :
    GetAlgorithm env' g aid = (.ok r, g) := by
  have hk : lookupKey g.pool aid.key = some r :=
    factorySteps_preserve_pool hs aid.key r (lookupKey_of_getAlgorithm_ok h)
  unfold GetAlgorithm
  rw [hk]

/-- C1 witness: after pooling `aidX`, an immediate second lookup (even
against a consistent store) returns reference 0 and the unchanged
state. -/
theorem GetAlgorithm_reference_stability_witness :
    GetAlgorithm envS3 f1 aidX = (.ok 0, f1) :=
  GetAlgorithm_reference_stability envS envS3 f0 f1 f1 aidX 0 rfl .refl

/-- C2: `ForceReconfiguration` re-invokes each pooled instance's
configuration step against the current store contents using its own
stored identity's label: whenever the store currently holds a parameter
set for that label and the implementation accepts it, the entry at the
same reference (same object) afterwards carries exactly those parameters,
with identity and implementation unchanged; the pool map itself is
untouched, and adopted results never depend on the factory state, so
adopted instances are unaffected. -/
theorem ForceReconfiguration_updates_pooled (env : Env) (f f' : AlgFactory)
    (errs : List AlgError) (h : ForceReconfiguration env f = (errs, f')) :
    f'.pool = f.pool ∧ f'.nextRef = f.nextRef ∧
    (∀ (env₂ : Env) (g : AlgFactory) (aid : AlgId),
        (AdoptAlgorithm env₂ f' aid).1 = (AdoptAlgorithm env₂ g aid).1) ∧
    ∀ (r : Ref) (alg : Algorithm) (ps : Params),
      lookupRef f.heap r = some alg →
      env.store alg.aid.config = some ps →
      alg.impl.accepts ps = true →
      lookupRef f'.heap r = some { alg with params := ps } := by
  injection h with he hf
  subst hf
  refine ⟨rfl, rfl, fun _ _ _ => rfl, ?_⟩
  intro r alg ps hl hst hac
  have hc : Configure env alg = .ok { alg with params := ps } := by
    simp [Configure, hst, hac]
  exact (reconfigureEntries_lookup env f.heap r alg hl).1 _ hc

/-- C2 witness: after the store edit to `scale = 3`, forced
reconfiguration updates the pooled `aidX` instance, at its old reference
0, to the new parameters. -/
theorem ForceReconfiguration_updates_pooled_witness :
    lookupRef f4.heap 0 =
      some { aid := aidX, impl := implT, params := [("scale", 3)] } :=
  (ForceReconfiguration_updates_pooled envS3 f3 f4
      (ForceReconfiguration envS3 f3).1 rfl).2.2.2 0 algX2 [("scale", 3)]
    rfl rfl rfl

/-- C3: a failing configuration step during `ForceReconfiguration` is
isolated per pooled entry: the failing entry keeps its prior configured
instance at its reference (still in the pool, not half-reconfigured) and
a `ReconfigurationFailed` record is collected, while every entry whose
configuration step succeeds is still reconfigured. -/
theorem ForceReconfiguration_isolates_failures (env : Env)
    (f f' : AlgFactory) (errs : List AlgError)
    (h : ForceReconfiguration env f = (errs, f')) :
    f'.pool = f.pool ∧
    ∀ (r : Ref) (alg : Algorithm), lookupRef f.heap r = some alg →
      (∀ e, Configure env alg = .error e →
          lookupRef f'.heap r = some alg ∧
            AlgError.reconfigurationFailed alg.aid ∈ errs) ∧
      (∀ alg', Configure env alg = .ok alg' →
          lookupRef f'.heap r = some alg') := by
  injection h with he hf
  subst hf
  subst he
  refine ⟨rfl, ?_⟩
  intro r alg hl
  exact ⟨fun e hc => (reconfigureEntries_lookup env f.heap r alg hl).2 e hc,
    fun alg' hc => (reconfigureEntries_lookup env f.heap r alg hl).1 alg' hc⟩

/-- C3 witness: reconfiguring against the edited store, the selective
`aidY` instance rejects `scale = 3`: it stays at reference 1 with its
prior parameters and its failure is recorded, while the run also updated
the other entry (see the C2 witness on the same run). -/
theorem ForceReconfiguration_isolates_failures_witness :
    lookupRef f4.heap 1 = some algY2 ∧
    AlgError.reconfigurationFailed aidY ∈
      (ForceReconfiguration envS3 f3).1 :=
  ((ForceReconfiguration_isolates_failures envS3 f3 f4
      (ForceReconfiguration envS3 f3).1 rfl).2 1 algY2 rfl).1
    .configurationError rfl


/-- C4: `AdoptAlgorithm` leaves the factory state completely unchanged,
its result is exactly a fresh Instantiation Engine build, and a later
`GetAlgorithm` on an identity that was never pooled still goes through a
fresh build (inserting at a fresh reference on success). -/
theorem AdoptAlgorithm_frame (env env' : Env) (f : AlgFactory)
    (aid : AlgId) :
    (AdoptAlgorithm env f aid).2 = f ∧
    (AdoptAlgorithm env f aid).1 = InstantiateAlgorithm env aid ∧
    (lookupKey f.pool aid.key = none →
      GetAlgorithm env' (AdoptAlgorithm env f aid).2 aid =
        (match InstantiateAlgorithm env' aid with
         | .error e => (.error e, f)
         | .ok alg =>
           (.ok f.nextRef,
             { pool := (aid.key, f.nextRef) :: f.pool,
               heap := (f.nextRef, alg) :: f.heap,
               nextRef := f.nextRef + 1 }))) := by
  refine ⟨rfl, rfl, fun habs => ?_⟩
  show GetAlgorithm env' f aid = _
  unfold GetAlgorithm
  rw [habs]

/-- C4 witness: adopting `aidX` on the empty factory leaves it empty, and
the subsequent pooled lookup performs the fresh build that yields
reference 0 and the singleton pool. -/
theorem AdoptAlgorithm_frame_witness :
    GetAlgorithm envS (AdoptAlgorithm envS f0 aidX).2 aidX = (.ok 0, f1) :=
  ((AdoptAlgorithm_frame envS envS f0 aidX).2.2 rfl).trans rfl

/-- C5: when the Instantiation Engine fails — unknown name, missing
configuration set, or rejected parameters — `GetAlgorithm` on an
un-pooled identity surfaces exactly the first error encountered and
returns the factory unchanged (nothing inserted, the identity stays
absent, no object reaches the caller), and `AdoptAlgorithm` surfaces the
same error with the state likewise unchanged. -/
theorem GetAlgorithm_error_propagation (env : Env) (f : AlgFactory)
    (aid : AlgId) (habs : lookupKey f.pool aid.key = none) :
    (env.resolve aid.name = none →
        GetAlgorithm env f aid = (.error .unknownAlgorithmName, f)) ∧
    (∀ impl, env.resolve aid.name = some impl →
        env.store aid.config = none →
        GetAlgorithm env f aid = (.error .configurationNotFound, f)) ∧
    (∀ impl ps, env.resolve aid.name = some impl →
        env.store aid.config = some ps → impl.accepts ps = false →
        GetAlgorithm env f aid = (.error .configurationError, f)) ∧
    (∀ e, InstantiateAlgorithm env aid = .error e →
        GetAlgorithm env f aid = (.error e, f) ∧
          AdoptAlgorithm env f aid = (.error e, f)) := by
  have gmiss : ∀ e, InstantiateAlgorithm env aid = .error e →
      GetAlgorithm env f aid = (.error e, f) := by
    intro e he
    unfold GetAlgorithm
    rw [habs, he]
  refine ⟨?_, ?_, ?_, ?_⟩
  · intro h1
    apply gmiss
    simp [InstantiateAlgorithm, h1]
  · intro impl h1 h2
    apply gmiss
    simp [InstantiateAlgorithm, h1, h2]
  · intro impl ps h1 h2 h3
    apply gmiss
    simp [InstantiateAlgorithm, h1, h2, h3]
  · intro e he
    refine ⟨gmiss e he, ?_⟩
    unfold AdoptAlgorithm
    rw [he]

/-- C5 witness: looking up the unregistered `aidZ` on the empty factory
fails with `UnknownAlgorithmName` and leaves the factory empty. -/
theorem GetAlgorithm_error_propagation_witness :
    GetAlgorithm envS f0 aidZ = (.error .unknownAlgorithmName, f0) :=
  (GetAlgorithm_error_propagation envS f0 aidZ rfl).1 rfl

/-- C6: the pool invariant — at most one pooled instance per identity
(unique pool keys) and every entry's key equal to the key of the identity
its instance was built with — holds of the initial empty factory and is
preserved by every registry operation: pooled lookup (hit, miss, or
failure), forced reconfiguration, and adoption. -/
theorem PoolInv_preserved (f : AlgFactory) (hinv : PoolInv f) :
    PoolInv ⟨[], [], 0⟩ ∧
    (∀ (env : Env) (aid : AlgId) (res : Except AlgError Ref)
        (f' : AlgFactory), GetAlgorithm env f aid = (res, f') →
        PoolInv f') ∧
    (∀ (env : Env) (errs : List AlgError) (f' : AlgFactory),
        ForceReconfiguration env f = (errs, f') → PoolInv f') ∧
    (∀ (env : Env) (aid : AlgId), PoolInv (AdoptAlgorithm env f aid).2) := by
  obtain ⟨hnd, hfresh, hkeys⟩ := hinv
  refine ⟨⟨by simp, by simp, by simp⟩, ?_, ?_,
    fun env aid => ⟨hnd, hfresh, hkeys⟩⟩
  · intro env aid res f' hg
    unfold GetAlgorithm at hg
    split at hg
    next r₀ hl =>
      injection hg with h1 h2
      subst h2
      exact ⟨hnd, hfresh, hkeys⟩
    next hl =>
      split at hg
      next e hb =>
        injection hg with h1 h2
        subst h2
        exact ⟨hnd, hfresh, hkeys⟩
      next alg hb =>
        injection hg with h1 h2
        subst h2
        refine ⟨?_, ?_, ?_⟩
        · show (aid.key :: f.pool.map Prod.fst).Nodup
          exact List.nodup_cons.mpr ⟨lookupKey_none_not_mem hl, hnd⟩
        · intro r a hmem
          show r < f.nextRef + 1
          rcases List.mem_cons.mp hmem with h1 | h1
          · rw [Prod.mk.injEq] at h1
            rw [h1.1]
            exact Nat.lt_succ_self _
          · exact Nat.lt_trans (hfresh r a h1) (Nat.lt_succ_self _)
        · intro k r hmem
          show ∃ algo,
            lookupRef ((f.nextRef, alg) :: f.heap) r = some algo ∧
              algo.aid.key = k
          rcases List.mem_cons.mp hmem with h1 | h1
          · rw [Prod.mk.injEq] at h1
            refine ⟨alg, ?_, ?_⟩
            · rw [h1.2, lookupRef, if_pos rfl]
            · rw [h1.1, InstantiateAlgorithm_ok hb]
          · obtain ⟨algo, hlo, hko⟩ := hkeys k r h1
            have hr : r < f.nextRef := hfresh r algo (lookupRef_some_mem hlo)
            refine ⟨algo, ?_, hko⟩
            rw [lookupRef, if_neg (Nat.ne_of_gt hr)]
            exact hlo
  · intro env errs f' hg
    injection hg with he hf
    subst hf
    refine ⟨hnd, ?_, ?_⟩
    · intro r a hmem
      show r < f.nextRef
      have hr : r ∈ ((reconfigureEntries env f.heap).2).map Prod.fst :=
        List.mem_map_of_mem Prod.fst hmem
      rw [reconfigureEntries_fst] at hr
      obtain ⟨p, hp, hpr⟩ := List.mem_map.mp hr
      rw [← hpr]
      exact hfresh p.1 p.2 hp
    · intro k r hmem
      obtain ⟨algo, hlo, hko⟩ := hkeys k r hmem
      obtain ⟨alg', hl', ha'⟩ := reconfigureEntries_lookup_aid env hlo
      exact ⟨alg', hl', by rw [ha', hko]⟩

/-- C6 witness: the invariant, established on the empty factory, carries
over the successful pooled build of `aidX`. -/
theorem PoolInv_preserved_witness : PoolInv f1 :=
  (PoolInv_preserved f0 (by simp [PoolInv, f0])).2.1 envS aidX (.ok 0) f1 rfl

/-- C7: `Parse` maps the combined identity text form to (name, label):
`Parse "foo::Bar"` yields label `"Default"`, `Parse "foo::Bar/Alt"` yields
label `"Alt"`, `Parse ""` fails with `MalformedIdentity`; in general the
label defaults to `"Default"` whenever the separator is absent from a
non-empty text, and `MalformedIdentity` occurs exactly on the empty
text. -/
theorem Parse_default_label_spec :
    Parse "foo::Bar" = .ok ⟨"foo::Bar", "Default"⟩ ∧
    Parse "foo::Bar/Alt" = .ok ⟨"foo::Bar", "Alt"⟩ ∧
    Parse "" = .error .malformedIdentity ∧
    (∀ t : String, t ≠ "" → '/' ∉ t.data → Parse t = .ok ⟨t, "Default"⟩) ∧
    (∀ t : String, Parse t = .error .malformedIdentity ↔ t = "") := by
  refine ⟨rfl, rfl, rfl, ?_, ?_⟩
  · intro t ht hsep
    unfold Parse
    rw [if_neg ht, splitNameLabel_no_sep t.data hsep]
  · intro t
    constructor
    · intro h
      by_contra hne
      unfold Parse at h
      rw [if_neg hne] at h
      rcases hsp : splitNameLabel t.data with ⟨n, l⟩
      rw [hsp] at h
      cases l <;> exact Except.noConfusion h
    · intro h
      subst h
      rfl

/-- C7 witness: the general default-label rule applied to the concrete
text `"x"`. -/
theorem Parse_default_label_spec_witness :
    Parse "x" = .ok ⟨"x", "Default"⟩ :=
  Parse_default_label_spec.2.2.2.1 "x" (by decide) (by decide)

/-- C9: `VegasMCIntegrator::Integrate` is a stub: it returns exactly 0 for
every integrand, and its result never depends on the integrand's
evaluation function (the integrand is never evaluated). -/
theorem Integrate_is_stub :
    (∀ g : GSFunc, VegasMCIntegrator.Integrate g = 0) ∧
    (∀ (g : GSFunc) (f : List ℚ → ℚ),
        VegasMCIntegrator.Integrate { g with eval := f } =
          VegasMCIntegrator.Integrate g) :=
  ⟨fun _ => rfl, fun _ _ => rfl⟩

/-- C10: `DecayProductList kNHLDcPi0Nu` is empty — the mode reaches the
default `switch` branch even though `AsString` names it `"N -> nu Pi0"` —
so `IsKinematicallyAllowed kNHLDcPi0Nu M` is true for every mass `M > 0`
under every PDG mass table, the product-mass sum being 0. -/
theorem DecayPi0Nu_empty_always_allowed :
    nhl.DecayProductList .kNHLDcPi0Nu = [] ∧
    nhl.AsString .kNHLDcPi0Nu = "N -> nu Pi0" ∧
    ∀ (mass : PdgCode → Option ℚ) (M : ℚ), 0 < M →
      nhl.IsKinematicallyAllowed mass .kNHLDcPi0Nu M = true := by
  refine ⟨rfl, rfl, ?_⟩
  intro mass M hM
  exact decide_eq_true hM

/-- C10 witness: with an empty mass table and `M = 1` the decay is
reported as kinematically allowed. -/
theorem DecayPi0Nu_empty_always_allowed_witness :
    nhl.IsKinematicallyAllowed (fun _ => none) .kNHLDcPi0Nu 1 = true :=
  DecayPi0Nu_empty_always_allowed.2.2 (fun _ => none) 1 (by decide)

end genie
